import Mathlib

/-!
# Verification of `src/buffer.rs` (rust-industrial-io buffer module)

Shallow embedding of the Industrial I/O `Buffer` type and its strided
channel-sample iterator `IntoIter<T>`.

Modelling conventions:

* Raw pointers become `Int` byte addresses.  Process memory, as seen through a
  `*const T`, becomes a function `mem : Int → T` giving the decoded `T` value
  read at a byte address (`ptr::read(prev)` becomes `mem prev`).
* `mem::size_of::<T>()` becomes an explicit parameter `sizeT : Nat`;
  `ptr.offset(step)` advances the byte address by `step * sizeT`, exactly as
  Rust pointer offset scales by the element size.
* `&mut self` methods are embedded in state-passing style, returning the
  updated `Buffer` next to the result; `&self` methods (`capacity`,
  `channel_iter`) are pure functions of the `Buffer`, which encodes that a
  shared reference cannot mutate.
* The C driver (libiio) behind the `ffi::` calls is outside this repository.
  Its observable behaviour, as the spec describes it, is captured by a
  `DriverOracle` supplying the return code of each call and by the one
  driver-side bit the spec gives semantics to: the one-way cancellation latch.
* Rust `Result<T>` becomes `Except Int T`, the `Int` being the native error
  code carried by the error value.
* The driver's transfer calls return `isize`; the source checks `ret as i32`
  and returns `ret as usize` (`src/buffer.rs:110,118,128`).  These are
  two's-complement truncating casts, embedded as `wrap_i32` (low 32 bits,
  signed) and `wrap_usize` (low 64 bits, unsigned, for the 64-bit targets the
  crate runs on).
* `isize` division (`/` in `channel_iter`) truncates toward zero, which is
  `Int.tdiv`; Rust panics on division by zero, so `channel_iter` is embedded
  as `Option`-returning, with `none` exactly on the division-by-zero case
  `sizeT = 0`.
-/

namespace RustIIO

/-- The strided channel iterator from `src/buffer.rs` (`pub struct IntoIter<T>`):
a cursor byte address `ptr`, the exclusive end byte address `end_`
(`end` in the source; renamed because `end` is a Lean keyword), and the
per-advance offset `step`, counted in elements of `T`.  The `PhantomData<T>`
marker corresponds to the type parameter itself. -/
structure IntoIter (T : Type) where
  ptr : Int
  end_ : Int
  step : Int
deriving DecidableEq

/-- `impl<T> Iterator for IntoIter<T>`: `fn next(&mut self) -> Option<T>`.
Compares the cursor with the end address; when exhausted returns `none` and
leaves the state untouched, otherwise reads memory at the cursor, advances the
cursor by `step` elements (`step * sizeT` bytes), and yields the value read at
the previous cursor. -/
def IntoIter.next {T : Type} (sizeT : Nat) (mem : Int → T) (it : IntoIter T) :
    Option T × IntoIter T :=
  if it.end_ ≤ it.ptr then
    (none, it)
  else
    (some (mem it.ptr), ⟨it.ptr + it.step * (sizeT : Int), it.end_, it.step⟩)

/-- The iterator state after `k` successive calls to `next`. -/
def IntoIter.nthState {T : Type} (sizeT : Nat) (mem : Int → T) (it : IntoIter T) :
    Nat → IntoIter T
  | 0 => it
  | k + 1 => (IntoIter.next sizeT mem (IntoIter.nthState sizeT mem it k)).2

/-- The `(k+1)`-th call to `next` reports exhaustion. -/
def IntoIter.exhaustsAt {T : Type} (sizeT : Nat) (mem : Int → T) (it : IntoIter T)
    (k : Nat) : Prop :=
  (IntoIter.next sizeT mem (IntoIter.nthState sizeT mem it k)).1 = none

/-- Repeatedly calling `next` eventually reports exhaustion: the produced
sequence is finite. -/
def IntoIter.Exhausts {T : Type} (sizeT : Nat) (mem : Int → T) (it : IntoIter T) :
    Prop :=
  ∃ k, IntoIter.exhaustsAt sizeT mem it k

/-- External collaborator: the reference-counted libiio context held by the
buffer to keep the device alive.  Opaque here; only its identity matters. -/
structure Context where
  handle : Nat
deriving DecidableEq

/-- A channel handle.  `chan` stands for the `*mut ffi::iio_channel` the Rust
`Channel` wraps; `iio_buffer_first` is keyed by it. -/
structure Channel where
  chan : Nat
deriving DecidableEq

/-- Modelled from the spec: the driver-level buffer state behind the
`*mut ffi::iio_buffer` handle.  The spec gives this collaborator exactly one
piece of observable state — the one-way cancellation latch — plus the data
geometry the iterator accessors report: the per-channel first-sample byte
address (`iio_buffer_first`), the end-of-data byte address
(`iio_buffer_end`), and the inter-sample byte stride (`iio_buffer_step`). -/
structure IioBuffer where
  cancelled : Bool
  firstAddr : Nat → Int
  endAddr : Int
  stepBytes : Int

/-- Modelled from the spec: the return codes the driver would produce for each
fallible call while the buffer is active.  Keeping them abstract quantifies
the theorems over every driver behaviour. -/
structure DriverOracle where
  pollFdRet : Int
  blockingRet : Bool → Int
  refillRet : Int
  pushRet : Int
  pushPartRet : Nat → Int

/-- Modelled from the spec: the distinct negative error code ("cancelled"
condition) with which transfer calls return once the buffer is cancelled. -/
def cancelErrno : Int := -125

/-- Modelled from the spec: `ffi::iio_buffer_get_poll_fd` returns the
driver-provided descriptor, or a negative error code. -/
def iio_buffer_get_poll_fd (o : DriverOracle) (_b : IioBuffer) : Int :=
  o.pollFdRet

/-- Modelled from the spec: `ffi::iio_buffer_set_blocking_mode` returns 0 or a
negative error code. -/
def iio_buffer_set_blocking_mode (o : DriverOracle) (_b : IioBuffer)
    (blocking : Bool) : Int :=
  o.blockingRet blocking

/-- Modelled from the spec: `ffi::iio_buffer_refill` returns immediately with
the cancellation error once the buffer is cancelled, otherwise the number of
bytes transferred or a negative error code. -/
def iio_buffer_refill (o : DriverOracle) (b : IioBuffer) : Int :=
  if b.cancelled then cancelErrno else o.refillRet

/-- Modelled from the spec: `ffi::iio_buffer_push`, same failure modes as
`refill`. -/
def iio_buffer_push (o : DriverOracle) (b : IioBuffer) : Int :=
  if b.cancelled then cancelErrno else o.pushRet

/-- Modelled from the spec: `ffi::iio_buffer_push_partial`, same failure modes
as `refill`; the driver receives the sample count. -/
def iio_buffer_push_part (o : DriverOracle) (b : IioBuffer) (num_samples : Nat) :
    Int :=
  if b.cancelled then cancelErrno else o.pushPartRet num_samples

/-- Modelled from the spec: `ffi::iio_buffer_cancel` sets the one-way
cancellation latch; it returns nothing and cannot fail. -/
def iio_buffer_cancel (b : IioBuffer) : IioBuffer :=
  { b with cancelled := true }

/-- Modelled from the spec: the crate-internal `sys_result` helper (declared
outside `src/buffer.rs`), which checks a driver return code locally and
converts it into a success value or an error value carrying the native error
code: negative return codes become errors, everything else succeeds with the
supplied result. -/
def sys_result {T : Type} (ret : Int) (result : T) : Except Int T :=
  if ret < 0 then Except.error ret else Except.ok result

/-- Rust `as i32` on an integer: keep the low 32 bits and read them as a
two's-complement signed value. -/
def wrap_i32 (x : Int) : Int :=
  (x + 2147483648) % 4294967296 - 2147483648

/-- Rust `as usize` on an integer (64-bit target): keep the low 64 bits and
read them as an unsigned value. -/
def wrap_usize (x : Int) : Nat :=
  (x % 18446744073709551616).toNat

/-- The Rust `Buffer` struct: driver handle `buf`, per-channel sample capacity
`cap`, and the held `Context` reference `ctx`. -/
structure Buffer where
  buf : IioBuffer
  cap : Nat
  ctx : Context

/-- `Buffer::capacity(&self)`: returns the `cap` field. -/
def Buffer.capacity (b : Buffer) : Nat :=
  b.cap

/-- `Buffer::poll_fd(&mut self)`: calls the driver and routes the return code
through `sys_result`, using the code itself as the success payload. -/
def Buffer.poll_fd (o : DriverOracle) (b : Buffer) : Except Int Int × Buffer :=
  (sys_result (iio_buffer_get_poll_fd o b.buf) (iio_buffer_get_poll_fd o b.buf), b)

/-- `Buffer::set_blocking_mode(&mut self, blocking)`. -/
def Buffer.set_blocking_mode (o : DriverOracle) (b : Buffer) (blocking : Bool) :
    Except Int Unit × Buffer :=
  (sys_result (iio_buffer_set_blocking_mode o b.buf blocking) (), b)

/-- `Buffer::refill(&mut self)`: `sys_result(ret as i32, ret as usize)` —
the driver's `isize` return is truncated to `i32` for the failure check and
to `usize` for the byte-count payload. -/
def Buffer.refill (o : DriverOracle) (b : Buffer) : Except Int Nat × Buffer :=
  (sys_result (wrap_i32 (iio_buffer_refill o b.buf))
    (wrap_usize (iio_buffer_refill o b.buf)), b)

/-- `Buffer::push(&mut self)`: `sys_result(ret as i32, ret as usize)`. -/
def Buffer.push (o : DriverOracle) (b : Buffer) : Except Int Nat × Buffer :=
  (sys_result (wrap_i32 (iio_buffer_push o b.buf))
    (wrap_usize (iio_buffer_push o b.buf)), b)

/-- `Buffer::push_partial(&mut self, num_samples)`:
`sys_result(ret as i32, ret as usize)`. -/
def Buffer.push_partial (o : DriverOracle) (b : Buffer) (num_samples : Nat) :
    Except Int Nat × Buffer :=
  (sys_result (wrap_i32 (iio_buffer_push_part o b.buf num_samples))
    (wrap_usize (iio_buffer_push_part o b.buf num_samples)), b)

/-- `Buffer::cancel(&mut self)`: fires the driver cancellation, returns
nothing. -/
def Buffer.cancel (b : Buffer) : Buffer :=
  { b with buf := iio_buffer_cancel b.buf }

/-- `Buffer::channel_iter::<T>(&self, chan)`: begin = first-sample address of
the channel, end = end-of-data address, step = byte stride `tdiv` (isize
division, truncating toward zero) the size of `T`.  Rust panics when
`size_of::<T>() = 0` (division by zero); the embedding returns `none` exactly
there. -/
def Buffer.channel_iter (T : Type) (sizeT : Nat) (b : Buffer) (chan : Channel) :
    Option (IntoIter T) :=
  if sizeT = 0 then none
  else
    some ⟨b.buf.firstAddr chan.chan, b.buf.endAddr,
      Int.tdiv b.buf.stepBytes (sizeT : Int)⟩

/-! ### General lemmas about the iterator's step relation -/

theorem IntoIter.next_fst_eq_none_iff {T : Type} (sizeT : Nat) (mem : Int → T)
    (it : IntoIter T) :
    (IntoIter.next sizeT mem it).1 = none ↔ it.end_ ≤ it.ptr := by
  unfold IntoIter.next
  split <;> simp_all

theorem IntoIter.next_snd_of_exhausted {T : Type} (sizeT : Nat) (mem : Int → T)
    (it : IntoIter T) (h : it.end_ ≤ it.ptr) :
    (IntoIter.next sizeT mem it).2 = it := by
  simp [IntoIter.next, h]

theorem IntoIter.next_of_lt {T : Type} (sizeT : Nat) (mem : Int → T)
    (it : IntoIter T) (h : it.ptr < it.end_) :
    IntoIter.next sizeT mem it =
      (some (mem it.ptr), ⟨it.ptr + it.step * (sizeT : Int), it.end_, it.step⟩) := by
  simp [IntoIter.next, not_le.2 h]

theorem IntoIter.nthState_add {T : Type} (sizeT : Nat) (mem : Int → T)
    (it : IntoIter T) (k m : Nat) :
    IntoIter.nthState sizeT mem it (k + m) =
      IntoIter.nthState sizeT mem (IntoIter.nthState sizeT mem it k) m := by
  induction m with
  | zero => rfl
  | succ m ih => simp [IntoIter.nthState, ih]

/-- Once the cursor is at or past the end, every later state is the same
state: the iterator is frozen. -/
theorem IntoIter.nthState_frozen {T : Type} (sizeT : Nat) (mem : Int → T)
    (it : IntoIter T) (h : it.end_ ≤ it.ptr) (k : Nat) :
    IntoIter.nthState sizeT mem it k = it := by
  induction k with
  | zero => rfl
  | succ k ih =>
      show (IntoIter.next sizeT mem (IntoIter.nthState sizeT mem it k)).2 = it
      rw [ih, IntoIter.next_snd_of_exhausted sizeT mem it h]

/-- If the `(k+1)`-th call still yields a sample, then the cursor has advanced
by exactly `step` elements on each of the first `k` calls, and end bound and
step are untouched. -/
theorem IntoIter.nthState_of_yield {T : Type} (sizeT : Nat) (mem : Int → T)
    (it : IntoIter T) (k : Nat)
    (h : (IntoIter.next sizeT mem (IntoIter.nthState sizeT mem it k)).1.isSome) :
    IntoIter.nthState sizeT mem it k =
      ⟨it.ptr + (k : Int) * (it.step * (sizeT : Int)), it.end_, it.step⟩ := by
  induction k with
  | zero =>
      cases it
      simp [IntoIter.nthState]
  | succ k ih =>
      have hk : (IntoIter.next sizeT mem (IntoIter.nthState sizeT mem it k)).1.isSome := by
        by_contra hnone
        have hn : (IntoIter.next sizeT mem (IntoIter.nthState sizeT mem it k)).1 = none := by
          cases hfst : (IntoIter.next sizeT mem (IntoIter.nthState sizeT mem it k)).1 with
          | none => rfl
          | some v => exact absurd (by simp [hfst]) hnone
        have hex : (IntoIter.nthState sizeT mem it k).end_ ≤
            (IntoIter.nthState sizeT mem it k).ptr :=
          (IntoIter.next_fst_eq_none_iff sizeT mem _).1 hn
        have hfix : IntoIter.nthState sizeT mem it (k + 1) =
            IntoIter.nthState sizeT mem it k :=
          IntoIter.next_snd_of_exhausted sizeT mem _ hex
        rw [hfix] at h
        rw [hn] at h
        simp at h
      have hclosed := ih hk
      have hlt : (IntoIter.nthState sizeT mem it k).ptr <
          (IntoIter.nthState sizeT mem it k).end_ := by
        by_contra hge
        have hn := (IntoIter.next_fst_eq_none_iff sizeT mem
          (IntoIter.nthState sizeT mem it k)).2 (not_lt.1 hge)
        rw [hn] at hk
        simp at hk
      show (IntoIter.next sizeT mem (IntoIter.nthState sizeT mem it k)).2 = _
      rw [IntoIter.next_of_lt sizeT mem _ hlt]
      rw [hclosed]
      refine congrArg (fun p => IntoIter.mk p it.end_ it.step) ?_
      push_cast
      ring

/-- As long as all earlier cursor positions stay strictly below the end, the
state after `k` calls has the closed-form cursor. -/
theorem IntoIter.nthState_closed_of_lt {T : Type} (sizeT : Nat) (mem : Int → T)
    (it : IntoIter T) (k : Nat)
    (h : ∀ j : Nat, j < k →
      it.ptr + (j : Int) * (it.step * (sizeT : Int)) < it.end_) :
    IntoIter.nthState sizeT mem it k =
      ⟨it.ptr + (k : Int) * (it.step * (sizeT : Int)), it.end_, it.step⟩ := by
  induction k with
  | zero =>
      cases it
      simp [IntoIter.nthState]
  | succ k ih =>
      have hclosed := ih (fun j hj => h j (Nat.lt_succ_of_lt hj))
      have hlt : it.ptr + (k : Int) * (it.step * (sizeT : Int)) < it.end_ :=
        h k (Nat.lt_succ_self k)
      show (IntoIter.next sizeT mem (IntoIter.nthState sizeT mem it k)).2 = _
      rw [hclosed]
      rw [IntoIter.next_of_lt sizeT mem _ hlt]
      refine congrArg (fun p => IntoIter.mk p it.end_ it.step) ?_
      push_cast
      ring

/-! ### Claims -/

/-- C1.  Each call to `next` first compares the cursor against the end address:
at or past the end it yields nothing and, in particular, never reads memory
(the result is the same for any two memories `mem`, `mem'`); strictly before
the end it reads the value at the cursor, advances the cursor by exactly
`step` elements (`step * sizeT` bytes), and yields the previously-read
value. -/
theorem next_strided_spec {T : Type} (sizeT : Nat) (mem mem' : Int → T)
    (it : IntoIter T) :
    (it.end_ ≤ it.ptr → IntoIter.next sizeT mem it = (none, it)) ∧
    (it.ptr < it.end_ → IntoIter.next sizeT mem it =
      (some (mem it.ptr), ⟨it.ptr + it.step * (sizeT : Int), it.end_, it.step⟩)) ∧
    (it.end_ ≤ it.ptr → IntoIter.next sizeT mem it = IntoIter.next sizeT mem' it) := by
  refine ⟨fun h => ?_, fun h => ?_, fun h => ?_⟩
  · simp [IntoIter.next, h]
  · simp [IntoIter.next, not_le.2 h]
  · simp [IntoIter.next, h]

/-- Witness for C1: both branches of `next_strided_spec` evaluated at concrete
iterators. -/
theorem next_strided_spec_witness :
    IntoIter.next 4 (fun a => a) (⟨0, 8, 2⟩ : IntoIter Int) =
      (some 0, ⟨8, 8, 2⟩) ∧
    IntoIter.next 4 (fun a => a) (⟨8, 8, 2⟩ : IntoIter Int) =
      (none, ⟨8, 8, 2⟩) :=
  ⟨(next_strided_spec 4 (fun a => a) (fun a => a) ⟨0, 8, 2⟩).2.1 (by decide),
   (next_strided_spec 4 (fun a => a) (fun a => a) ⟨8, 8, 2⟩).1 (by decide)⟩

/-- C2.  For an iterator over `N` samples with positive element step `S`
(end address exactly `N` strides past the first sample), each of the first
`N` calls to `next` yields the sample at the closed-form cursor (and the read
happens strictly below the end address), the `(N+1)`-th call reports
exhaustion, and every call from the `(N+1)`-th on also reports exhaustion:
once exhausted the iterator stays exhausted. -/
theorem iter_exact_count {T : Type} (sizeT S N : Nat) (begin_ : Int)
    (mem : Int → T) (it0 : IntoIter T)
    (hsz : 0 < sizeT) (hS : 0 < S)
    (h0 : it0 = ⟨begin_, begin_ + (N : Int) * ((S : Int) * (sizeT : Int)), (S : Int)⟩) :
    (∀ k : Nat, k < N →
      (IntoIter.next sizeT mem (IntoIter.nthState sizeT mem it0 k)).1 =
        some (mem (begin_ + (k : Int) * ((S : Int) * (sizeT : Int)))) ∧
      (IntoIter.nthState sizeT mem it0 k).ptr < it0.end_) ∧
    (IntoIter.next sizeT mem (IntoIter.nthState sizeT mem it0 N)).1 = none ∧
    (∀ m : Nat, N ≤ m →
      (IntoIter.next sizeT mem (IntoIter.nthState sizeT mem it0 m)).1 = none) := by
  subst h0
  have hspos : (0 : Int) < (S : Int) * (sizeT : Int) :=
    mul_pos (by exact_mod_cast hS) (by exact_mod_cast hsz)
  have hstate : ∀ k : Nat, k ≤ N →
      IntoIter.nthState sizeT mem
        ⟨begin_, begin_ + (N : Int) * ((S : Int) * (sizeT : Int)), (S : Int)⟩ k =
      ⟨begin_ + (k : Int) * ((S : Int) * (sizeT : Int)),
        begin_ + (N : Int) * ((S : Int) * (sizeT : Int)), (S : Int)⟩ := by
    intro k hk
    refine IntoIter.nthState_closed_of_lt sizeT mem _ k ?_
    intro j hj
    have hjN : (j : Int) < (N : Int) := by exact_mod_cast lt_of_lt_of_le hj hk
    simpa using add_lt_add_left (mul_lt_mul_of_pos_right hjN hspos) begin_
  have hafter : ∀ m : Nat, N ≤ m →
      (IntoIter.next sizeT mem (IntoIter.nthState sizeT mem
        ⟨begin_, begin_ + (N : Int) * ((S : Int) * (sizeT : Int)), (S : Int)⟩ m)).1 =
        none := by
    intro m hm
    obtain ⟨d, rfl⟩ := Nat.exists_eq_add_of_le hm
    rw [IntoIter.nthState_add, hstate N le_rfl,
      IntoIter.nthState_frozen sizeT mem _ le_rfl d]
    exact (IntoIter.next_fst_eq_none_iff sizeT mem _).2 le_rfl
  refine ⟨?_, hafter N le_rfl, hafter⟩
  intro k hk
  have hkN : (k : Int) < (N : Int) := by exact_mod_cast hk
  have hlt : begin_ + (k : Int) * ((S : Int) * (sizeT : Int)) <
      begin_ + (N : Int) * ((S : Int) * (sizeT : Int)) :=
    add_lt_add_left (mul_lt_mul_of_pos_right hkN hspos) begin_
  constructor
  · rw [hstate k (Nat.le_of_lt hk),
      IntoIter.next_of_lt sizeT mem _ hlt]
  · rw [hstate k (Nat.le_of_lt hk)]
    exact hlt

/-- Witness for C2 at `N = 1`, `S = 1`, `sizeT = 1`, first sample at 0. -/
theorem iter_exact_count_witness :
    (∀ k : Nat, k < 1 →
      (IntoIter.next 1 (fun a => a)
        (IntoIter.nthState 1 (fun a => a) (⟨0, 1, 1⟩ : IntoIter Int) k)).1 =
        some (0 + (k : Int) * (1 * 1)) ∧
      (IntoIter.nthState 1 (fun a => a) (⟨0, 1, 1⟩ : IntoIter Int) k).ptr <
        (⟨0, 1, 1⟩ : IntoIter Int).end_) ∧
    (IntoIter.next 1 (fun a => a)
      (IntoIter.nthState 1 (fun a => a) (⟨0, 1, 1⟩ : IntoIter Int) 1)).1 = none ∧
    (∀ m : Nat, 1 ≤ m →
      (IntoIter.next 1 (fun a => a)
        (IntoIter.nthState 1 (fun a => a) (⟨0, 1, 1⟩ : IntoIter Int) m)).1 = none) :=
  iter_exact_count 1 1 1 0 (fun a => a) ⟨0, 1, 1⟩ (by decide) (by decide) (by decide)

/-- If each advance moves the cursor by a positive number of bytes, repeated
calls to `next` reach exhaustion after finitely many steps. -/
theorem IntoIter.exhausts_of_pos_step {T : Type} (sizeT : Nat) (mem : Int → T)
    (it : IntoIter T) (h : 0 < it.step * (sizeT : Int)) :
    IntoIter.Exhausts sizeT mem it := by
  suffices H : ∀ d : Nat, ∀ it : IntoIter T, 0 < it.step * (sizeT : Int) →
      (it.end_ - it.ptr).toNat ≤ d → IntoIter.Exhausts sizeT mem it from
    H (it.end_ - it.ptr).toNat it h le_rfl
  intro d
  induction d with
  | zero =>
      intro it h hd
      refine ⟨0, (IntoIter.next_fst_eq_none_iff sizeT mem it).2 ?_⟩
      omega
  | succ d ih =>
      intro it h hd
      by_cases hex : it.end_ ≤ it.ptr
      · exact ⟨0, (IntoIter.next_fst_eq_none_iff sizeT mem it).2 hex⟩
      · push_neg at hex
        have hnext := IntoIter.next_of_lt sizeT mem it hex
        have hd' : (it.end_ - (it.ptr + it.step * (sizeT : Int))).toNat ≤ d := by
          generalize it.step * (sizeT : Int) = s at h
          omega
        obtain ⟨k, hk⟩ := ih
          ⟨it.ptr + it.step * (sizeT : Int), it.end_, it.step⟩ h hd'
        refine ⟨k + 1, ?_⟩
        unfold IntoIter.exhaustsAt at hk ⊢
        have hshift : IntoIter.nthState sizeT mem it (k + 1) =
            IntoIter.nthState sizeT mem
              ⟨it.ptr + it.step * (sizeT : Int), it.end_, it.step⟩ k := by
          have h1 : IntoIter.nthState sizeT mem it 1 =
              ⟨it.ptr + it.step * (sizeT : Int), it.end_, it.step⟩ := by
            show (IntoIter.next sizeT mem it).2 = _
            rw [hnext]
          rw [Nat.add_comm, IntoIter.nthState_add sizeT mem it 1 k, h1]
        rw [hshift]
        exact hk

/-- Counterexample to C5 as stated: with an element type of size 8 over a
buffer whose byte stride is 4, `channel_iter` computes step
`tdiv 4 8 = 0`, and the resulting iterator (cursor 0, end 4) never advances,
so it never reports exhaustion: the produced sequence is infinite. -/
theorem channel_iter_not_always_finite :
    Buffer.channel_iter Int 8 ⟨⟨false, fun _ => 0, 4, 4⟩, 4, ⟨0⟩⟩ ⟨0⟩ =
      some ⟨0, 4, 0⟩ ∧
    ¬ IntoIter.Exhausts 8 (fun a => a) (⟨0, 4, 0⟩ : IntoIter Int) := by
  constructor
  · decide
  · rintro ⟨k, hk⟩
    have hfix : ∀ j : Nat,
        IntoIter.nthState 8 (fun a => a) (⟨0, 4, 0⟩ : IntoIter Int) j =
          ⟨0, 4, 0⟩ := by
      intro j
      induction j with
      | zero => rfl
      | succ j ih =>
          show (IntoIter.next 8 (fun a => a)
            (IntoIter.nthState 8 (fun a => a) (⟨0, 4, 0⟩ : IntoIter Int) j)).2 = _
          rw [ih]
          decide
    unfold IntoIter.exhaustsAt at hk
    rw [hfix k] at hk
    exact absurd hk (by decide)

/-- C5 amended: for every element type `T` of positive size whose computed
step (byte stride `tdiv` size of `T`) is positive, the sequence produced by
`channel_iter` is finite: repeated calls to `next` reach exhaustion after
finitely many steps. -/
theorem channel_iter_finite_of_pos_step {T : Type} (sizeT : Nat) (b : Buffer)
    (chan : Channel) (mem : Int → T) (it : IntoIter T)
    (hsz : 0 < sizeT)
    (hstep : 0 < Int.tdiv b.buf.stepBytes (sizeT : Int))
    (hit : Buffer.channel_iter T sizeT b chan = some it) :
    IntoIter.Exhausts sizeT mem it := by
  unfold Buffer.channel_iter at hit
  rw [if_neg (Nat.pos_iff_ne_zero.1 hsz)] at hit
  have hit' : it = ⟨b.buf.firstAddr chan.chan, b.buf.endAddr,
      Int.tdiv b.buf.stepBytes (sizeT : Int)⟩ := (Option.some_inj.1 hit.symm)
  subst hit'
  exact IntoIter.exhausts_of_pos_step sizeT mem _
    (mul_pos hstep (by exact_mod_cast hsz))

/-- Witness for the amended C5: a 4-byte element over a 4-byte-stride buffer
with 4 bytes of data exhausts. -/
theorem channel_iter_finite_of_pos_step_witness :
    (0 : Nat) < 4 ∧
    (0 : Int) < Int.tdiv 4 ((4 : Nat) : Int) ∧
    Buffer.channel_iter Int 4 ⟨⟨false, fun _ => 0, 4, 4⟩, 4, ⟨0⟩⟩ ⟨0⟩ =
      some ⟨0, 4, 1⟩ ∧
    IntoIter.Exhausts 4 (fun a => a) (⟨0, 4, 1⟩ : IntoIter Int) :=
  ⟨by decide, by decide, by decide,
    channel_iter_finite_of_pos_step 4 ⟨⟨false, fun _ => 0, 4, 4⟩, 4, ⟨0⟩⟩ ⟨0⟩
      (fun a => a) ⟨0, 4, 1⟩ (by decide) (by decide) (by decide)⟩

/-- C3.  The buffer is a two-state machine.  `cancel` (a total function: it
returns no error value and cannot fail) sets the cancellation latch; a second
`cancel` changes nothing beyond the first (idempotent); on a cancelled buffer
every `refill`/`push`/`push_partial` call returns immediately with the
cancellation error; and no operation transitions the buffer back to active:
the transfer calls return the cancelled buffer unchanged. -/
theorem cancel_two_state (o : DriverOracle) (b : Buffer) (n : Nat) :
    ( Buffer.cancel b).buf.cancelled = true ∧
    Buffer.cancel ( Buffer.cancel b) = Buffer.cancel b ∧
    ( Buffer.refill o ( Buffer.cancel b)).1 = Except.error cancelErrno ∧
    ( Buffer.push o ( Buffer.cancel b)).1 = Except.error cancelErrno ∧
    ( Buffer.push_partial o ( Buffer.cancel b) n).1 = Except.error cancelErrno ∧
    ( Buffer.refill o ( Buffer.cancel b)).2 = Buffer.cancel b ∧
    ( Buffer.push o ( Buffer.cancel b)).2 = Buffer.cancel b ∧
    ( Buffer.push_partial o ( Buffer.cancel b) n).2 = Buffer.cancel b :=
  ⟨rfl, rfl, rfl, rfl, rfl, rfl, rfl, rfl⟩

/-- C4.  For positive `sizeT`, `channel_iter` always returns an iterator (no
validation, no error) whose step is the byte stride `tdiv` (truncating
division) the size of `T`; when the size exactly divides the byte stride the
step times the size recovers the byte stride (the element stride `S`); and
for a nonnegative byte stride the division only ever truncates downward. -/
theorem channel_iter_step_div {T : Type} (b : Buffer) (chan : Channel)
    (sizeT : Nat) (hsz : 0 < sizeT) :
    Buffer.channel_iter T sizeT b chan =
      some ⟨b.buf.firstAddr chan.chan, b.buf.endAddr,
        Int.tdiv b.buf.stepBytes (sizeT : Int)⟩ ∧
    ((sizeT : Int) ∣ b.buf.stepBytes →
      Int.tdiv b.buf.stepBytes (sizeT : Int) * (sizeT : Int) = b.buf.stepBytes) ∧
    (0 ≤ b.buf.stepBytes →
      Int.tdiv b.buf.stepBytes (sizeT : Int) * (sizeT : Int) ≤ b.buf.stepBytes) := by
  refine ⟨?_, fun hdvd => Int.tdiv_mul_cancel hdvd, fun hnn => ?_⟩
  · unfold Buffer.channel_iter
    rw [if_neg (Nat.pos_iff_ne_zero.1 hsz)]
  · rw [Int.tdiv_eq_ediv hnn (by positivity)]
    exact Int.ediv_mul_le _ (by exact_mod_cast Nat.pos_iff_ne_zero.1 hsz)

/-- Witness for C4 at a byte stride of 6 and an element size of 4: the
division truncates to step 1 and no error is raised. -/
theorem channel_iter_step_div_witness :
    Buffer.channel_iter Int 4 ⟨⟨false, fun _ => 0, 8, 6⟩, 2, ⟨0⟩⟩ ⟨0⟩ =
      some ⟨0, 8, Int.tdiv 6 ((4 : Nat) : Int)⟩ ∧
    (((4 : Nat) : Int) ∣ (6 : Int) →
      Int.tdiv 6 ((4 : Nat) : Int) * ((4 : Nat) : Int) = (6 : Int)) ∧
    ((0 : Int) ≤ 6 →
      Int.tdiv 6 ((4 : Nat) : Int) * ((4 : Nat) : Int) ≤ (6 : Int)) :=
  channel_iter_step_div ⟨⟨false, fun _ => 0, 8, 6⟩, 2, ⟨0⟩⟩ ⟨0⟩ 4 (by decide)

/-- C6 evaluated at the failing input.  The transfer methods check
`ret as i32`, not `ret`, so the check sees only the low 32 bits of the
driver's `isize` return.  On an active buffer: a driver `refill` return of
2147483648 (a successful 2 GiB transfer) wraps to -2147483648 and is surfaced
as `Err(-2147483648)`, turning a driver success into a reported error; dually
a driver `push` return of -2147483649 (a failure) wraps to 2147483647 ≥ 0 and
is returned as `Ok` with the wrapped `ret as usize` payload, silently
discarding the failure.  So "returns an error if and only if the driver call
signals failure" does not hold of the code. -/
theorem refill_cast_discrepancy :
    iio_buffer_refill ⟨0, fun _ => 0, 2147483648, -2147483649, fun _ => 0⟩
      (⟨false, fun _ => 0, 0, 0⟩ : IioBuffer) = 2147483648 ∧
    (0 : Int) ≤ 2147483648 ∧
    ( Buffer.refill ⟨0, fun _ => 0, 2147483648, -2147483649, fun _ => 0⟩
      ⟨⟨false, fun _ => 0, 0, 0⟩, 1, ⟨0⟩⟩).1 = Except.error (-2147483648) ∧
    iio_buffer_push ⟨0, fun _ => 0, 2147483648, -2147483649, fun _ => 0⟩
      (⟨false, fun _ => 0, 0, 0⟩ : IioBuffer) = -2147483649 ∧
    (-2147483649 : Int) < 0 ∧
    ( Buffer.push ⟨0, fun _ => 0, 2147483648, -2147483649, fun _ => 0⟩
      ⟨⟨false, fun _ => 0, 0, 0⟩, 1, ⟨0⟩⟩).1 =
      Except.ok 18446744071562067967 :=
  ⟨rfl, by decide, rfl, rfl, by decide, rfl⟩

/-- C7.  `capacity` returns the `cap` field the buffer was created with (a
pure, total function: no side effects, no failure), and no operation —
`poll_fd`, `set_blocking_mode`, `refill`, `push`, `push_partial` or `cancel`
— changes the value it returns.  `channel_iter` takes the buffer by shared
reference and is embedded as a pure function, so it cannot change it
either. -/
theorem capacity_constant (o : DriverOracle) (b : Buffer) (blocking : Bool)
    (n : Nat) :
    Buffer.capacity b = b.cap ∧
    Buffer.capacity ( Buffer.poll_fd o b).2 = Buffer.capacity b ∧
    Buffer.capacity ( Buffer.set_blocking_mode o b blocking).2 =
      Buffer.capacity b ∧
    Buffer.capacity ( Buffer.refill o b).2 = Buffer.capacity b ∧
    Buffer.capacity ( Buffer.push o b).2 = Buffer.capacity b ∧
    Buffer.capacity ( Buffer.push_partial o b n).2 = Buffer.capacity b ∧
    Buffer.capacity ( Buffer.cancel b) = Buffer.capacity b :=
  ⟨rfl, rfl, rfl, rfl, rfl, rfl, rfl⟩

/-- Every value an iterator ever yields is the memory content at one of the
closed-form cursor positions: first sample address plus a whole number of
strides. -/
theorem IntoIter.yield_value {T : Type} (sizeT : Nat) (mem : Int → T)
    (it : IntoIter T) (k : Nat) (v : T)
    (h : (IntoIter.next sizeT mem (IntoIter.nthState sizeT mem it k)).1 = some v) :
    v = mem (it.ptr + (k : Int) * (it.step * (sizeT : Int))) := by
  have hs : (IntoIter.next sizeT mem (IntoIter.nthState sizeT mem it k)).1.isSome := by
    rw [h]; rfl
  have hclosed := IntoIter.nthState_of_yield sizeT mem it k hs
  rw [hclosed] at h
  have hlt : it.ptr + (k : Int) * (it.step * (sizeT : Int)) < it.end_ := by
    by_contra hge
    rw [(IntoIter.next_fst_eq_none_iff sizeT mem
      ⟨it.ptr + (k : Int) * (it.step * (sizeT : Int)), it.end_, it.step⟩).2
      (not_lt.1 hge)] at h
    exact Option.noConfusion h
  rw [IntoIter.next_of_lt sizeT mem
    ⟨it.ptr + (k : Int) * (it.step * (sizeT : Int)), it.end_, it.step⟩ hlt] at h
  exact (Option.some_inj.1 h).symm

/-- C8.  Iterators for two channels of the same buffer have independent
cursors starting at the channel-specific first-sample addresses, share the
buffer's end-of-data address as end bound (and the same step), and each one
only ever yields the memory contents at its own channel's positions: sample
address plus 0, 1, 2, … strides from its own first-sample address.  (The
iterators are separate values; advancing one cannot change the other.) -/
theorem channel_iters_independent {T : Type} (sizeT : Nat) (b : Buffer)
    (cA cB : Channel) (mem : Int → T) (hsz : 0 < sizeT) :
    ∃ itA itB : IntoIter T,
      Buffer.channel_iter T sizeT b cA = some itA ∧
      Buffer.channel_iter T sizeT b cB = some itB ∧
      itA.ptr = b.buf.firstAddr cA.chan ∧
      itB.ptr = b.buf.firstAddr cB.chan ∧
      itA.end_ = b.buf.endAddr ∧
      itB.end_ = b.buf.endAddr ∧
      itA.step = itB.step ∧
      (∀ (k : Nat) (v : T),
        (IntoIter.next sizeT mem (IntoIter.nthState sizeT mem itA k)).1 = some v →
          v = mem (b.buf.firstAddr cA.chan +
            (k : Int) * (itA.step * (sizeT : Int)))) ∧
      (∀ (k : Nat) (v : T),
        (IntoIter.next sizeT mem (IntoIter.nthState sizeT mem itB k)).1 = some v →
          v = mem (b.buf.firstAddr cB.chan +
            (k : Int) * (itB.step * (sizeT : Int)))) := by
  have hmk : ∀ c : Channel, Buffer.channel_iter T sizeT b c =
      some ⟨b.buf.firstAddr c.chan, b.buf.endAddr,
        Int.tdiv b.buf.stepBytes (sizeT : Int)⟩ := by
    intro c
    unfold Buffer.channel_iter
    rw [if_neg (Nat.pos_iff_ne_zero.1 hsz)]
  refine ⟨⟨b.buf.firstAddr cA.chan, b.buf.endAddr,
      Int.tdiv b.buf.stepBytes (sizeT : Int)⟩,
    ⟨b.buf.firstAddr cB.chan, b.buf.endAddr,
      Int.tdiv b.buf.stepBytes (sizeT : Int)⟩,
    hmk cA, hmk cB, rfl, rfl, rfl, rfl, rfl, ?_, ?_⟩
  · intro k v h
    exact IntoIter.yield_value sizeT mem _ k v h
  · intro k v h
    exact IntoIter.yield_value sizeT mem _ k v h

/-- Witness for C8: a buffer with byte stride 8, element size 4, channels at
first-sample addresses 0 and 4, end of data at 8. -/
theorem channel_iters_independent_witness :
    ∃ itA itB : IntoIter Int,
      Buffer.channel_iter Int 4
        ⟨⟨false, fun c => (c : Int), 8, 8⟩, 1, ⟨0⟩⟩ ⟨0⟩ = some itA ∧
      Buffer.channel_iter Int 4
        ⟨⟨false, fun c => (c : Int), 8, 8⟩, 1, ⟨0⟩⟩ ⟨4⟩ = some itB ∧
      itA.ptr = ((0 : Nat) : Int) ∧
      itB.ptr = ((4 : Nat) : Int) ∧
      itA.end_ = 8 ∧
      itB.end_ = 8 ∧
      itA.step = itB.step ∧
      (∀ (k : Nat) (v : Int),
        (IntoIter.next 4 (fun a => a) (IntoIter.nthState 4 (fun a => a) itA k)).1 =
          some v →
          v = ((0 : Nat) : Int) + (k : Int) * (itA.step * ((4 : Nat) : Int))) ∧
      (∀ (k : Nat) (v : Int),
        (IntoIter.next 4 (fun a => a) (IntoIter.nthState 4 (fun a => a) itB k)).1 =
          some v →
          v = ((4 : Nat) : Int) + (k : Int) * (itB.step * ((4 : Nat) : Int))) :=
  channel_iters_independent 4 ⟨⟨false, fun c => (c : Int), 8, 8⟩, 1, ⟨0⟩⟩
    ⟨0⟩ ⟨4⟩ (fun a => a) (by decide)

/-- C9.  For a zero-sized element type the step computation divides by zero,
so the call fails instead of returning an iterator (`none`, mirroring the
Rust panic); for every positive element size the call returns an iterator:
`channel_iter` is total exactly under the precondition `size_of::<T>() > 0`. -/
theorem channel_iter_zero_sized {T : Type} (b : Buffer) (chan : Channel)
    (s : Nat) (hs : 0 < s) :
    Buffer.channel_iter T 0 b chan = none ∧
    (Buffer.channel_iter T s b chan).isSome = true := by
  refine ⟨rfl, ?_⟩
  unfold Buffer.channel_iter
  rw [if_neg (Nat.pos_iff_ne_zero.1 hs)]
  rfl

/-- Witness for C9 at element size 4. -/
theorem channel_iter_zero_sized_witness :
    Buffer.channel_iter Int 0 ⟨⟨false, fun _ => 0, 4, 4⟩, 1, ⟨0⟩⟩ ⟨0⟩ = none ∧
    (Buffer.channel_iter Int 4 ⟨⟨false, fun _ => 0, 4, 4⟩, 1, ⟨0⟩⟩ ⟨0⟩).isSome =
      true :=
  channel_iter_zero_sized ⟨⟨false, fun _ => 0, 4, 4⟩, 1, ⟨0⟩⟩ ⟨0⟩ 4 (by decide)

/-- C10.  `capacity` and `channel_iter` take the buffer by shared reference
(embedded as pure functions, so they cannot change any field): `capacity`
reads only `cap`, and `channel_iter` reads only the data geometry — two
buffers agreeing on first-sample addresses, end address and byte stride give
identical iterators regardless of their `cancelled` latch, `cap` or held
context.  Advancing an iterator changes at most its own cursor: the end bound
and step of the state returned by `next` are those of the input, and the new
state is either the input itself or the input with only the cursor moved. -/
theorem shared_ref_frame {T : Type} (sizeT : Nat) (mem : Int → T)
    (it : IntoIter T) (b b' : Buffer) (chan : Channel)
    (h1 : b.buf.firstAddr = b'.buf.firstAddr)
    (h2 : b.buf.endAddr = b'.buf.endAddr)
    (h3 : b.buf.stepBytes = b'.buf.stepBytes) :
    Buffer.capacity b = b.cap ∧
    Buffer.channel_iter T sizeT b chan = Buffer.channel_iter T sizeT b' chan ∧
    (IntoIter.next sizeT mem it).2.end_ = it.end_ ∧
    (IntoIter.next sizeT mem it).2.step = it.step ∧
    ((IntoIter.next sizeT mem it).2 = it ∨
      (IntoIter.next sizeT mem it).2 =
        ⟨it.ptr + it.step * (sizeT : Int), it.end_, it.step⟩) := by
  refine ⟨rfl, ?_, ?_, ?_, ?_⟩
  · unfold Buffer.channel_iter
    rw [h1, h2, h3]
  · unfold IntoIter.next
    split <;> rfl
  · unfold IntoIter.next
    split <;> rfl
  · unfold IntoIter.next
    split
    · exact Or.inl rfl
    · exact Or.inr rfl

/-- Witness for C10: two buffers sharing the geometry (first sample 0, end 8,
byte stride 8) but differing in cancellation latch, capacity and context
produce the same iterator. -/
theorem shared_ref_frame_witness :
    Buffer.capacity ⟨⟨true, fun _ => 0, 8, 8⟩, 7, ⟨1⟩⟩ = 7 ∧
    Buffer.channel_iter Int 4 ⟨⟨true, fun _ => 0, 8, 8⟩, 7, ⟨1⟩⟩ ⟨0⟩ =
      Buffer.channel_iter Int 4 ⟨⟨false, fun _ => 0, 8, 8⟩, 9, ⟨2⟩⟩ ⟨0⟩ ∧
    (IntoIter.next 4 (fun a => a) (⟨0, 8, 2⟩ : IntoIter Int)).2.end_ =
      (⟨0, 8, 2⟩ : IntoIter Int).end_ ∧
    (IntoIter.next 4 (fun a => a) (⟨0, 8, 2⟩ : IntoIter Int)).2.step =
      (⟨0, 8, 2⟩ : IntoIter Int).step ∧
    ((IntoIter.next 4 (fun a => a) (⟨0, 8, 2⟩ : IntoIter Int)).2 =
        (⟨0, 8, 2⟩ : IntoIter Int) ∨
      (IntoIter.next 4 (fun a => a) (⟨0, 8, 2⟩ : IntoIter Int)).2 =
        ⟨(0 : Int) + 2 * ((4 : Nat) : Int), 8, 2⟩) :=
  shared_ref_frame 4 (fun a => a) ⟨0, 8, 2⟩ ⟨⟨true, fun _ => 0, 8, 8⟩, 7, ⟨1⟩⟩
    ⟨⟨false, fun _ => 0, 8, 8⟩, 9, ⟨2⟩⟩ ⟨0⟩ rfl rfl rfl

end RustIIO
